import Mathlib

/-!
Shallow embedding of `src/vector.h` (namespace `notstd`): `RawMemory<T>` +
`Vector<T>`, a growable contiguous container with manual storage management.

Modelling conventions:
* A `Vector<T>` state is `Vec α`: the list of live element values in slots
  `[0, size)` (so `size = elems.length`) together with the capacity of its
  `RawMemory` block.  Raw pointers/iterators are modelled as slot indices.
* `std` bulk algorithms (`move_backward`, `std::move`, `uninitialized_copy_n`,
  `uninitialized_move_n`, `destroy_n`, `copy`) are translated by their
  specified net effect on the live-value list; moves are value-preserving.
* Operations guarded by an `assert(...)` in the source are embedded as
  functions into `Except OpError _` and return `OpError.assertFail` exactly
  when the asserted condition is false (the debug-build behaviour).
  `PopBack` (lines 209-212) contains no assert at all: on an empty vector it
  destroys an object at `begin() + (0 - 1)` and wraps `size_`, which is
  undefined behaviour, embedded as `OpError.undefinedBehavior`.
* Exception safety of the growth paths is modelled by injecting the failure
  point (a throwing element constructor or copy) as an explicit argument and
  recording the state left behind after the unwinding that the source code
  actually performs.
-/

namespace notstd

/-- Errors observable from a contract violation in debug builds:
`assertFail` for a failed `assert(...)` present in the source, and
`undefinedBehavior` for an operation whose body performs UB without any
assertion guarding it. -/
inductive OpError : Type where
  | assertFail : OpError
  | undefinedBehavior : OpError
deriving DecidableEq, Repr

/-- State of a `notstd::Vector<T>` (vector.h lines 91-312): the values of the
live elements in slots `[0, size_)` and `data_.Capacity()`. -/
structure Vec (α : Type) where
  elems : List α
  cap : Nat
deriving DecidableEq, Repr

variable {α : Type}

/-- `Size()` (line 279): the number of live elements `size_`. -/
def Vec.size (v : Vec α) : Nat :=
  v.elems.length

/-- Default constructor (line 94): size 0, capacity 0. -/
def Vec.empty : Vec α :=
  ⟨[], 0⟩

/-- Sized constructor (lines 96-100): capacity `n`, `n` value-constructed
elements; `d` is the default-constructed value of the element type. -/
def Vec.sized (n : Nat) (d : α) : Vec α :=
  ⟨List.replicate n d, n⟩

/-- Copy constructor (lines 102-106): allocates capacity `other.size_` and
copy-constructs the `size_` elements. -/
def Vec.copyCtor (other : Vec α) : Vec α :=
  ⟨other.elems, other.size⟩

/-- The new capacity chosen by the growth paths (lines 147 and 177):
`size_ == 0 ? 1 : size_ * 2`. -/
def Vec.newCapacity (v : Vec α) : Nat :=
  if v.size = 0 then 1 else v.size * 2

/-- `EmplaceBack` (lines 141-156).  If `size_ < data_.Capacity()` the new
element is constructed in slot `size_` and `size_` is incremented; otherwise a
new block of `newCapacity` slots is allocated, the new element is constructed
at slot `size_` of the new block, the old elements are migrated to slots
`[0, size_)`, destroyed in the old block, and the blocks are swapped.  In both
branches the live values end up `elems ++ [x]`.  The returned reference
`data_[size_ - 1]` is the slot index `size_ - 1` taken after the increment,
i.e. the old size. -/
def Vec.emplaceBack (v : Vec α) (x : α) : Vec α × Nat :=
  if v.size < v.cap then
    (⟨v.elems ++ [x], v.cap⟩, v.size)
  else
    (⟨v.elems ++ [x], v.newCapacity⟩, v.size)

/-- `EmplaceBack` with the element constructor's outcome made explicit:
`ctor = none` means the `T(std::forward<Args>(args)...)` constructor call
throws, `some x` means it produces the value `x`.  The second component is the
state of the container after the call returns or after the exception has
propagated out.  In the non-growth branch the constructor (line 144) runs
before `++size_`, so a throw leaves the container untouched; in the growth
branch the constructor (line 149) runs before any existing element is touched
and before the swap, so the unwinding only deallocates the fresh block and the
container is untouched. -/
def Vec.emplaceBackF (v : Vec α) (ctor : Option α) : Option (Vec α × Nat) × Vec α :=
  if v.size < v.cap then
    match ctor with
    | none => (none, v)
    | some x => (some (⟨v.elems ++ [x], v.cap⟩, v.size), ⟨v.elems ++ [x], v.cap⟩)
  else
    match ctor with
    | none => (none, v)
    | some x => (some (⟨v.elems ++ [x], v.newCapacity⟩, v.size), ⟨v.elems ++ [x], v.newCapacity⟩)

/-- `PushBack` (lines 158-161): forwards to `EmplaceBack` (its result is
discarded by `PushBack`, which returns void). -/
def Vec.pushBack (v : Vec α) (x : α) : Vec α :=
  (v.emplaceBack x).1

/-- `Emplace` (lines 163-202), position given as the slot index
`before = pos - begin()`.  The source asserts `begin() <= pos <= end()`,
i.e. `before <= size_`; a violated assert is `OpError.assertFail`.
Three branches:
* `pos == end()`: delegate to `EmplaceBack` (line 169);
* `size_ < capacity` (lines 170-175): `tmp = T(args)`; the last element is
  move-constructed into slot `size_`; `move_backward(pos, end()-1, end())`
  shifts slots `[before, size_-1)` into `[before+1, size_)` from the back;
  `data_[before] = move(tmp)`; `++size_`.  Net live values:
  `take before ++ x :: drop before`;
* growth (lines 176-199): new block of `newCapacity` slots; the new element is
  constructed at slot `before` of the new block, the old slots `[0, before)`
  are migrated to `[0, before)` and the old slots `[before, size_)`
  (`after + 1` of them) to `[before+1, size_+1)`; old elements destroyed,
  blocks swapped, `++size_`.  Same net live values, capacity `newCapacity`.
All branches return `data_.GetAddress() + before`, the slot index `before`. -/
def Vec.emplace (v : Vec α) (before : Nat) (x : α) : Except OpError (Vec α × Nat) :=
  if before ≤ v.size then
    if before = v.size then
      .ok ((v.emplaceBack x).1, before)
    else if v.size < v.cap then
      .ok (⟨v.elems.take before ++ x :: v.elems.drop before, v.cap⟩, before)
    else
      .ok (⟨v.elems.take before ++ x :: v.elems.drop before, v.newCapacity⟩, before)
  else
    .error .assertFail

/-- `Insert` (lines 204-207): forwards to `Emplace`. -/
def Vec.insert (v : Vec α) (before : Nat) (x : α) : Except OpError (Vec α × Nat) :=
  v.emplace before x

/-- `PopBack` (lines 209-212): `destroy_n(begin() + (size_ - 1), 1); --size_;`.
There is no `assert` in its body and none is reached through `begin()`
(`GetAddress` is unchecked), so on `size_ == 0` the destructor runs on the
nonexistent slot `begin() - 1` (and `--size_` wraps): undefined behaviour in
every build mode, not an assertion failure.  On a non-empty vector the last
live element is destroyed and `size_` decremented. -/
def Vec.popBack (v : Vec α) : Except OpError (Vec α) :=
  if v.elems.isEmpty then
    .error .undefinedBehavior
  else
    .ok ⟨v.elems.dropLast, v.cap⟩

/-- `Erase` (lines 214-220), position given as the slot index
`p = pos - begin()`.  Asserts `begin() <= pos < end()`, i.e. `p < size_`.
`std::move(pos + 1, end(), pos)` shifts the values of slots `[p+1, size_)`
into `[p, size_-1)`; the vacated last slot is destroyed and `size_`
decremented.  Net live values: `take p ++ drop (p+1)`.  Returns the slot
index `p`. -/
def Vec.erase (v : Vec α) (p : Nat) : Except OpError (Vec α × Nat) :=
  if p < v.size then
    .ok (⟨v.elems.take p ++ v.elems.drop (p + 1), v.cap⟩, p)
  else
    .error .assertFail

/-- Copy assignment (lines 222-240) for `this != &rhs`.  If
`rhs.size_ > data_.Capacity()`: copy-and-swap with `Vector rhs_copy(rhs)`,
whose capacity is `rhs.size_`.  Otherwise storage is reused (capacity kept):
if `rhs.size_ < size_` the common prefix is copy-assigned and the excess
suffix destroyed; else the first `size_` values are copy-assigned and the
remaining `rhs.size_ - size_` copy-constructed at `end()`.  In each reuse
branch the live values become exactly `rhs.elems`. -/
def Vec.copyAssign (v rhs : Vec α) : Vec α :=
  if v.cap < rhs.size then
    ⟨rhs.elems, rhs.size⟩
  else if rhs.size < v.size then
    ⟨rhs.elems, v.cap⟩
  else
    ⟨rhs.elems, v.cap⟩

/-- Move assignment (lines 242-248): `Swap(rhs); rhs.size_ = 0;`.  The pair of
resulting states `(this, rhs)`: `this` takes `rhs`'s storage and size, `rhs`
keeps `this`'s old block but with `size_` forced to 0. -/
def Vec.moveAssign (v rhs : Vec α) : Vec α × Vec α :=
  (⟨rhs.elems, rhs.cap⟩, ⟨[], v.cap⟩)

/-- `Reserve` (lines 255-263): no-op when `new_capacity <= data_.Capacity()`;
otherwise a block of exactly `new_capacity` slots is allocated, all live
elements migrated, the originals destroyed and the blocks swapped.  Size and
values unchanged. -/
def Vec.reserve (v : Vec α) (n : Nat) : Vec α :=
  if n ≤ v.cap then
    v
  else
    ⟨v.elems, n⟩

/-- `Resize` (lines 265-277): no-op when `new_size == size_`; when smaller,
destroy slots `[new_size, size_)` and shrink; when larger, `Reserve(new_size)`
then value-construct slots `[size_, new_size)` (default value `d`). -/
def Vec.resize (v : Vec α) (n : Nat) (d : α) : Vec α :=
  if n = v.size then
    v
  else if n < v.size then
    ⟨v.elems.take n, v.cap⟩
  else
    ⟨(v.reserve n).elems ++ List.replicate (n - v.size) d, (v.reserve n).cap⟩

/-! ### Exception unwinding in the growth path of `Emplace` (lines 176-199)

When `pos != end()` and `size_ == capacity`, `Emplace` allocates a new block,
constructs the new element at slot `before` of the new block, then migrates
the prefix `[0, before)` and the suffix `[before, size_)`.
`UninitializedMoveOrCopy` (lines 301-307) uses `uninitialized_move_n` when the
element move constructor is `noexcept` (and then cannot throw), and
`uninitialized_copy_n` otherwise — copies of the originals that leave the
source untouched and that may throw; on a throw the algorithm destroys the
elements it had itself constructed.  We model which new-block slots still hold
constructed elements after each `catch` handler has run, and on which slots a
destructor was invoked without a live object being there (undefined
behaviour). -/

/-- Which copy migration of the `Emplace` growth path throws. -/
inductive GrowFailure : Type where
  | inFrontCopy : GrowFailure
  | inBackCopy : GrowFailure
deriving DecidableEq, Repr

/-- Run destructors on the slots `ds` of a block whose live (constructed)
slots are `live`: first component — the slots still live afterwards; second —
the slots of `ds` that held no live object, on which invoking the destructor
is undefined behaviour. -/
def destroySlots (live ds : List Nat) : List Nat × List Nat :=
  (live.filter (fun i => ¬ i ∈ ds), ds.filter (fun i => ¬ i ∈ live))

/-- Outcome of an aborted growth-path `Emplace`: the original container after
the exception propagates, the new-block slots still holding constructed
elements when the new block is deallocated (leaked objects), and the slots on
which a handler ran a destructor with no object there (undefined behaviour). -/
structure GrowAbortResult (α : Type) where
  original : Vec α
  newBlockLive : List Nat
  destroyedDeadSlots : List Nat
deriving DecidableEq, Repr

/-- The `Emplace` growth path (lines 176-199) with the copy migration named by
`f` throwing; `before < v.size` holds in this branch (`pos != end()`).

* `f = inFrontCopy`: line 179 constructed the new element at new-block slot
  `before`; `uninitialized_copy_n` of the prefix (line 182) threw after
  destroying its own partially constructed elements, so the only live slot is
  `before`; the handler (line 185) runs `(new_data + size_)->~T()`, a
  destructor on slot `size_`, and rethrows.
* `f = inBackCopy`: the prefix `[0, before)` and the new element at `before`
  are live; `uninitialized_copy_n` of the suffix (line 190) threw after
  cleaning up its own elements; the handler (line 193) runs
  `destroy_n(new_data.GetAddress(), before)`, destructors on slots
  `[0, before)`, and rethrows.

The original block is never written on this path (migration copies read the
originals), and lines 197-199 are not reached, so the container is unchanged. -/
def Vec.emplaceGrowAbort (v : Vec α) (before : Nat) (f : GrowFailure) : GrowAbortResult α :=
  match f with
  | .inFrontCopy =>
      let live := [before]
      let d := destroySlots live [v.size]
      ⟨v, d.1, d.2⟩
  | .inBackCopy =>
      let live := List.range before ++ [before]
      let d := destroySlots live (List.range before)
      ⟨v, d.1, d.2⟩

/-! ### Containers reachable through the public interface -/

/-- Containers produced by sequences of the public operations, starting from
the constructors.  Fallible operations contribute their successful results;
`moveAssign` contributes the states of both operands afterwards (the source of
a move constructor ends at `⟨[], 0⟩`, the default state, and `Swap` only
exchanges two existing states). -/
inductive Reachable : Vec α → Prop where
  | default : Reachable Vec.empty
  | sized (n : Nat) (d : α) : Reachable (Vec.sized n d)
  | copy {v : Vec α} : Reachable v → Reachable (Vec.copyCtor v)
  | emplaceBack {v : Vec α} (x : α) : Reachable v → Reachable (v.emplaceBack x).1
  | emplace {v w : Vec α} {p r : Nat} {x : α} :
      Reachable v → v.emplace p x = .ok (w, r) → Reachable w
  | popBack {v w : Vec α} : Reachable v → v.popBack = .ok w → Reachable w
  | erase {v w : Vec α} {p r : Nat} :
      Reachable v → v.erase p = .ok (w, r) → Reachable w
  | copyAssign {v rhs : Vec α} :
      Reachable v → Reachable rhs → Reachable (v.copyAssign rhs)
  | moveAssignDst {v rhs : Vec α} :
      Reachable v → Reachable rhs → Reachable (v.moveAssign rhs).1
  | moveAssignSrc {v rhs : Vec α} :
      Reachable v → Reachable rhs → Reachable (v.moveAssign rhs).2
  | reserve {v : Vec α} (n : Nat) : Reachable v → Reachable (v.reserve n)
  | resize {v : Vec α} (n : Nat) (d : α) : Reachable v → Reachable (v.resize n d)

/-- Appending a whole list through `EmplaceBack`, left to right. -/
def Vec.appendAll (v : Vec α) (xs : List α) : Vec α :=
  xs.foldl (fun w x => (w.emplaceBack x).1) v

/-! ### Helper lemmas on the list shapes produced by the operations -/

theorem appendOne_length (l : List α) (x : α) : (l ++ [x]).length = l.length + 1 := by
  simp

theorem appendOne_getElem_lt (l : List α) (x : α) (i : Nat) (h : i < l.length) :
    (l ++ [x])[i]? = l[i]? := by
  rw [List.getElem?_append]
  rw [if_pos h]

theorem appendOne_getElem_last (l : List α) (x : α) : (l ++ [x])[l.length]? = some x := by
  rw [List.getElem?_append]
  simp

theorem insertShape_length (l : List α) (p : Nat) (x : α) (hp : p ≤ l.length) :
    (l.take p ++ x :: l.drop p).length = l.length + 1 := by
  simp [List.length_take]
  omega

theorem insertShape_getElem_lt (l : List α) (p : Nat) (x : α) (i : Nat)
    (hp : p ≤ l.length) (h : i < p) :
    (l.take p ++ x :: l.drop p)[i]? = l[i]? := by
  rw [List.getElem?_append]
  simp only [List.length_take]
  rw [if_pos (by omega), List.getElem?_take, if_pos h]

theorem insertShape_getElem_at (l : List α) (p : Nat) (x : α) (hp : p ≤ l.length) :
    (l.take p ++ x :: l.drop p)[p]? = some x := by
  rw [List.getElem?_append]
  simp [List.length_take, Nat.min_eq_left hp]

theorem insertShape_getElem_gt (l : List α) (p : Nat) (x : α) (i : Nat)
    (hp : p ≤ l.length) (h1 : p ≤ i) :
    (l.take p ++ x :: l.drop p)[i + 1]? = l[i]? := by
  rw [List.getElem?_append]
  simp only [List.length_take, Nat.min_eq_left hp]
  rw [if_neg (by omega)]
  have he : i + 1 - p = (i - p) + 1 := by omega
  rw [he]
  simp only [List.getElem?_cons_succ, List.getElem?_drop]
  congr 1
  omega

theorem eraseShape_length (l : List α) (p : Nat) (hp : p < l.length) :
    (l.take p ++ l.drop (p + 1)).length = l.length - 1 := by
  simp [List.length_take]
  omega

theorem eraseShape_getElem_lt (l : List α) (p i : Nat) (hp : p ≤ l.length) (h : i < p) :
    (l.take p ++ l.drop (p + 1))[i]? = l[i]? := by
  rw [List.getElem?_append]
  simp only [List.length_take]
  rw [if_pos (by omega), List.getElem?_take, if_pos h]

theorem eraseShape_getElem_ge (l : List α) (p i : Nat) (hp : p ≤ l.length) (h1 : p ≤ i) :
    (l.take p ++ l.drop (p + 1))[i]? = l[i + 1]? := by
  rw [List.getElem?_append]
  simp only [List.length_take, Nat.min_eq_left hp]
  rw [if_neg (by omega), List.getElem?_drop]
  congr 1
  omega

/-- On a valid position, `Emplace` succeeds and every branch produces the live
values `take before ++ x :: drop before` (for some capacity) and returns the
slot index `before`. -/
theorem emplace_ok (v : Vec α) (p : Nat) (x : α) (hp : p ≤ v.size) :
    ∃ c : Nat, v.emplace p x = .ok (⟨v.elems.take p ++ x :: v.elems.drop p, c⟩, p) := by
  unfold Vec.emplace Vec.emplaceBack
  rw [if_pos hp]
  by_cases h : p = v.size
  · rw [if_pos h]
    by_cases hc : v.size < v.cap
    · refine ⟨v.cap, ?_⟩
      rw [if_pos hc]
      simp only [Vec.size] at h
      simp [h, List.take_length, List.drop_length]
    · refine ⟨v.newCapacity, ?_⟩
      rw [if_neg hc]
      simp only [Vec.size] at h
      simp [h, List.take_length, List.drop_length]
  · rw [if_neg h]
    by_cases hc : v.size < v.cap
    · exact ⟨v.cap, by rw [if_pos hc]⟩
    · exact ⟨v.newCapacity, by rw [if_neg hc]⟩

/-- On a valid position, `Erase` succeeds with live values
`take p ++ drop (p+1)`, the capacity kept, and returns the slot index `p`. -/
theorem erase_ok (v : Vec α) (p : Nat) (hp : p < v.size) :
    v.erase p = .ok (⟨v.elems.take p ++ v.elems.drop (p + 1), v.cap⟩, p) := by
  unfold Vec.erase
  rw [if_pos hp]

/-! ### Claim theorems -/

/-- Claim C1 (code bug), evaluated at the failing input: two elements at full
capacity (`size == capacity == 2`), `Emplace` at position 1, growth path, with
a throwing element copy.  If the prefix migration (line 182) throws, the
handler at line 185 calls the destructor on new-block slot `size_ = 2`, a slot
holding no object (undefined behaviour), and the just-constructed new element
at slot `before = 1` stays live and is leaked when the block is freed.  If the
suffix migration (line 190) throws, the handler at line 193 destroys only
slots `[0, 1)`, again leaking the new element at slot 1.  The claim instead
requires the new element to be destroyed in both cases.  The original
container is indeed left unchanged in both cases. -/
theorem emplaceGrowAbort_leaks_new_element :
    ((⟨[10, 20], 2⟩ : Vec Nat).emplaceGrowAbort 1 .inFrontCopy).newBlockLive = [1] ∧
    ((⟨[10, 20], 2⟩ : Vec Nat).emplaceGrowAbort 1 .inFrontCopy).destroyedDeadSlots = [2] ∧
    ((⟨[10, 20], 2⟩ : Vec Nat).emplaceGrowAbort 1 .inBackCopy).newBlockLive = [1] ∧
    ((⟨[10, 20], 2⟩ : Vec Nat).emplaceGrowAbort 1 .inFrontCopy).original = ⟨[10, 20], 2⟩ ∧
    ((⟨[10, 20], 2⟩ : Vec Nat).emplaceGrowAbort 1 .inBackCopy).original = ⟨[10, 20], 2⟩ := by
  decide

/-- Claim C2 counterexample: `PopBack` (lines 209-212) contains no assertion,
so popping an empty container is not reported as a checked assertion failure
in debug builds; its body runs a destructor on the nonexistent slot
`begin() - 1`, which is undefined behaviour. -/
theorem popBack_empty_no_assert :
    (Vec.empty : Vec Nat).popBack = .error .undefinedBehavior ∧
    (Vec.empty : Vec Nat).popBack ≠ .error .assertFail := by
  refine ⟨rfl, fun hc => ?_⟩
  simp [Vec.popBack, Vec.empty] at hc

/-- Claim C2 (amended): the remove-last operation requires a non-empty
container, but `PopBack` contains no assertion checking this — popping an
empty container is undefined behaviour in every build mode, not a checked
assertion failure.  On a non-empty container it destroys the last live
element (keeping the values of the first `size - 1` slots) and decrements
size by one. -/
theorem popBack_spec (v : Vec Nat) (h : v.elems ≠ []) :
    v.popBack = .ok ⟨v.elems.dropLast, v.cap⟩ ∧
    (v.elems.dropLast).length = v.size - 1 ∧
    (∀ i, i < v.size - 1 → (v.elems.dropLast)[i]? = v.elems[i]?) ∧
    (Vec.empty : Vec Nat).popBack = .error .undefinedBehavior := by
  refine ⟨?_, ?_, ?_, rfl⟩
  · unfold Vec.popBack
    rw [if_neg (by simp [h])]
  · simp [Vec.size]
  · intro i hi
    rw [List.dropLast_eq_take, List.getElem?_take, if_pos]
    exact hi

/-- Claim C2 witness: popping `[4, 5]` at capacity 3. -/
theorem popBack_spec_witness :
    (⟨[4, 5], 3⟩ : Vec Nat).popBack = .ok ⟨([4, 5] : List Nat).dropLast, 3⟩ ∧
    (([4, 5] : List Nat).dropLast)[0]? = ([4, 5] : List Nat)[0]? :=
  ⟨(popBack_spec ⟨[4, 5], 3⟩ (by decide)).1,
   (popBack_spec ⟨[4, 5], 3⟩ (by decide)).2.2.1 0 (by decide)⟩

/-- Claim C3: in the growth case of `EmplaceBack` (`size == capacity`), if the
constructor of the new element throws, the container's size, capacity and
element values all equal their pre-call values — the new element is
constructed in the new block (line 149) before any existing element is
touched. -/
theorem emplaceBack_grow_ctorFail_strong (v : Vec Nat) (h : v.size = v.cap) :
    (v.emplaceBackF none).1 = none ∧
    ((v.emplaceBackF none).2).size = v.size ∧
    ((v.emplaceBackF none).2).cap = v.cap ∧
    ((v.emplaceBackF none).2).elems = v.elems := by
  unfold Vec.emplaceBackF
  rw [if_neg (by omega)]
  exact ⟨rfl, rfl, rfl, rfl⟩

/-- Claim C3 witness: a full one-element container whose growth-append aborts
in the element constructor. -/
theorem emplaceBack_grow_ctorFail_strong_witness :
    ((⟨[3], 1⟩ : Vec Nat).emplaceBackF none).1 = none ∧
    (((⟨[3], 1⟩ : Vec Nat).emplaceBackF none).2).elems = [3] ∧
    (((⟨[3], 1⟩ : Vec Nat).emplaceBackF none).2).cap = 1 :=
  ⟨(emplaceBack_grow_ctorFail_strong ⟨[3], 1⟩ rfl).1,
   (emplaceBack_grow_ctorFail_strong ⟨[3], 1⟩ rfl).2.2.2,
   (emplaceBack_grow_ctorFail_strong ⟨[3], 1⟩ rfl).2.2.1⟩

/-- Claim C4: `EmplaceBack` increases size by one, keeps the values of the
pre-existing elements, places the new value at index `old size`, and returns
(the slot index of) a reference to the appended element; the capacity is kept
when `size < capacity` and becomes `max(1, 2*capacity)` when
`size == capacity`. -/
theorem emplaceBack_spec (v : Vec Nat) (x : Nat) :
    ((v.emplaceBack x).1).size = v.size + 1 ∧
    (∀ i, i < v.size → ((v.emplaceBack x).1).elems[i]? = v.elems[i]?) ∧
    ((v.emplaceBack x).1).elems[v.size]? = some x ∧
    (v.emplaceBack x).2 = v.size ∧
    (v.size < v.cap → ((v.emplaceBack x).1).cap = v.cap) ∧
    (v.size = v.cap → ((v.emplaceBack x).1).cap = max 1 (2 * v.cap)) := by
  unfold Vec.emplaceBack
  by_cases hc : v.size < v.cap
  · rw [if_pos hc]
    refine ⟨by simp [Vec.size], ?_, ?_, rfl, fun _ => rfl, fun h => absurd hc (by omega)⟩
    · intro i hi
      exact appendOne_getElem_lt v.elems x i hi
    · exact appendOne_getElem_last v.elems x
  · rw [if_neg hc]
    refine ⟨by simp [Vec.size], ?_, ?_, rfl, fun h => absurd h hc, ?_⟩
    · intro i hi
      exact appendOne_getElem_lt v.elems x i hi
    · exact appendOne_getElem_last v.elems x
    · intro h
      show v.newCapacity = max 1 (2 * v.cap)
      unfold Vec.newCapacity
      rw [h]
      split <;> omega

/-- Claim C4 witness: appending 9 to a full one-element container grows the
capacity to `max 1 2 = 2` and places 9 at index 1. -/
theorem emplaceBack_spec_witness :
    (((⟨[7], 1⟩ : Vec Nat).emplaceBack 9).1).elems[1]? = some 9 ∧
    (((⟨[7], 1⟩ : Vec Nat).emplaceBack 9).1).cap = max 1 (2 * 1) ∧
    (((⟨[7], 1⟩ : Vec Nat).emplaceBack 9).1).elems[0]? = (⟨[7], 1⟩ : Vec Nat).elems[0]? :=
  ⟨(emplaceBack_spec ⟨[7], 1⟩ 9).2.2.1,
   (emplaceBack_spec ⟨[7], 1⟩ 9).2.2.2.2.2 rfl,
   (emplaceBack_spec ⟨[7], 1⟩ 9).2.1 0 (by decide)⟩

/-- Claim C7: `Reserve(n)` is a no-op when `n <= capacity` and otherwise sets
the capacity to exactly `n`; it never decreases the capacity and leaves size
and element values unchanged. -/
theorem reserve_spec (v : Vec Nat) (n : Nat) :
    (n ≤ v.cap → v.reserve n = v) ∧
    (v.cap < n → (v.reserve n).cap = n) ∧
    v.cap ≤ (v.reserve n).cap ∧
    (v.reserve n).size = v.size ∧
    (v.reserve n).elems = v.elems := by
  unfold Vec.reserve
  by_cases h : n ≤ v.cap
  · rw [if_pos h]
    exact ⟨fun _ => rfl, fun hlt => absurd hlt (by omega), le_refl _, rfl, rfl⟩
  · rw [if_neg h]
    exact ⟨fun hle => absurd hle h, fun _ => rfl,
      Nat.le_of_lt (Nat.gt_of_not_le h), rfl, rfl⟩

/-- Claim C7 witness: reserving 5 on a capacity-2 container sets capacity 5
and keeps the elements; reserving 1 is a no-op. -/
theorem reserve_spec_witness :
    ((⟨[1, 2], 2⟩ : Vec Nat).reserve 5).cap = 5 ∧
    ((⟨[1, 2], 2⟩ : Vec Nat).reserve 5).elems = [1, 2] ∧
    (⟨[1, 2], 2⟩ : Vec Nat).reserve 1 = ⟨[1, 2], 2⟩ :=
  ⟨(reserve_spec ⟨[1, 2], 2⟩ 5).2.1 (by decide),
   (reserve_spec ⟨[1, 2], 2⟩ 5).2.2.2.2,
   (reserve_spec ⟨[1, 2], 2⟩ 1).1 (by decide)⟩

/-- Claim C8: copy assignment makes the destination element-wise equal to
`rhs` with `size = rhs.size`; when `rhs.size <= capacity` the existing
storage is reused and the capacity unchanged, and when `rhs.size > capacity`
a full copy of `rhs` (capacity `rhs.size`) is swapped in.  (`rhs` is passed
by const reference and never written, so it is unchanged; the embedding is a
pure function of both states.) -/
theorem copyAssign_spec (dst rhs : Vec Nat) :
    (dst.copyAssign rhs).elems = rhs.elems ∧
    (dst.copyAssign rhs).size = rhs.size ∧
    (rhs.size ≤ dst.cap → (dst.copyAssign rhs).cap = dst.cap) ∧
    (dst.cap < rhs.size → (dst.copyAssign rhs).cap = rhs.size) := by
  unfold Vec.copyAssign
  by_cases h : dst.cap < rhs.size
  · rw [if_pos h]
    exact ⟨rfl, rfl, fun hle => absurd h (by omega), fun _ => rfl⟩
  · by_cases h2 : rhs.size < dst.size
    · rw [if_neg h, if_pos h2]
      exact ⟨rfl, rfl, fun _ => rfl, fun hlt => absurd hlt h⟩
    · rw [if_neg h, if_neg h2]
      exact ⟨rfl, rfl, fun _ => rfl, fun hlt => absurd hlt h⟩

/-- Claim C5: for every position `p <= size`, `Insert(p, v)`/`Emplace` keeps
the elements before `p`, places the new value at index `p`, shifts the
elements previously at `[p, size)` one slot right in order, increases size by
one and returns a cursor to slot `p` (the second component of the successful
result). -/
theorem emplace_spec (v : Vec Nat) (p x : Nat) (hp : p ≤ v.size) :
    (∃ c, v.emplace p x = .ok (⟨v.elems.take p ++ x :: v.elems.drop p, c⟩, p)) ∧
    (v.elems.take p ++ x :: v.elems.drop p).length = v.size + 1 ∧
    (∀ i, i < p → (v.elems.take p ++ x :: v.elems.drop p)[i]? = v.elems[i]?) ∧
    (v.elems.take p ++ x :: v.elems.drop p)[p]? = some x ∧
    (∀ i, p ≤ i → i < v.size →
      (v.elems.take p ++ x :: v.elems.drop p)[i + 1]? = v.elems[i]?) := by
  refine ⟨emplace_ok v p x hp, insertShape_length v.elems p x hp, ?_, ?_, ?_⟩
  · intro i hi
    exact insertShape_getElem_lt v.elems p x i hp hi
  · exact insertShape_getElem_at v.elems p x hp
  · intro i hi1 _
    exact insertShape_getElem_gt v.elems p x i hp hi1

/-- Claim C5 witness: the spec's own scenario — `Insert(1, 99)` into
`[1, 2, 3]` with spare capacity yields `[1, 99, 2, 3]` and cursor 1. -/
theorem emplace_spec_witness :
    (∃ c, (⟨[1, 2, 3], 3⟩ : Vec Nat).emplace 1 99 =
      .ok (⟨([1, 2, 3] : List Nat).take 1 ++ 99 :: ([1, 2, 3] : List Nat).drop 1, c⟩, 1)) ∧
    (([1, 2, 3] : List Nat).take 1 ++ 99 :: ([1, 2, 3] : List Nat).drop 1)[1]? = some 99 ∧
    (([1, 2, 3] : List Nat).take 1 ++ 99 :: ([1, 2, 3] : List Nat).drop 1)[0]? =
      ([1, 2, 3] : List Nat)[0]? ∧
    (([1, 2, 3] : List Nat).take 1 ++ 99 :: ([1, 2, 3] : List Nat).drop 1)[2]? =
      ([1, 2, 3] : List Nat)[1]? :=
  ⟨(emplace_spec ⟨[1, 2, 3], 3⟩ 1 99 (by decide)).1,
   (emplace_spec ⟨[1, 2, 3], 3⟩ 1 99 (by decide)).2.2.2.1,
   (emplace_spec ⟨[1, 2, 3], 3⟩ 1 99 (by decide)).2.2.1 0 (by decide),
   (emplace_spec ⟨[1, 2, 3], 3⟩ 1 99 (by decide)).2.2.2.2 1 (by decide) (by decide)⟩

/-- Claim C6: for every position `p < size`, `Erase(p)` removes the element at
`p`, shifts each element of `(p, size)` one slot left preserving order,
decreases size by one and keeps the capacity. -/
theorem erase_spec (v : Vec Nat) (p : Nat) (hp : p < v.size) :
    v.erase p = .ok (⟨v.elems.take p ++ v.elems.drop (p + 1), v.cap⟩, p) ∧
    (v.elems.take p ++ v.elems.drop (p + 1)).length = v.size - 1 ∧
    (∀ i, i < p → (v.elems.take p ++ v.elems.drop (p + 1))[i]? = v.elems[i]?) ∧
    (∀ i, p ≤ i → (v.elems.take p ++ v.elems.drop (p + 1))[i]? = v.elems[i + 1]?) := by
  refine ⟨erase_ok v p hp, eraseShape_length v.elems p hp, ?_, ?_⟩
  · intro i hi
    exact eraseShape_getElem_lt v.elems p i (Nat.le_of_lt hp) hi
  · intro i hi
    exact eraseShape_getElem_ge v.elems p i (Nat.le_of_lt hp) hi

/-- Claim C6 witness: the spec's own scenario — `Erase(0)` on `[1, 99, 2, 3]`
yields `[99, 2, 3]`, size 3, capacity kept. -/
theorem erase_spec_witness :
    (⟨[1, 99, 2, 3], 4⟩ : Vec Nat).erase 0 =
      .ok (⟨([1, 99, 2, 3] : List Nat).take 0 ++ ([1, 99, 2, 3] : List Nat).drop 1, 4⟩, 0) ∧
    (([1, 99, 2, 3] : List Nat).take 0 ++ ([1, 99, 2, 3] : List Nat).drop 1).length = 3 ∧
    (([1, 99, 2, 3] : List Nat).take 0 ++ ([1, 99, 2, 3] : List Nat).drop 1)[0]? =
      ([1, 99, 2, 3] : List Nat)[1]? :=
  ⟨(erase_spec ⟨[1, 99, 2, 3], 4⟩ 0 (by decide)).1,
   (erase_spec ⟨[1, 99, 2, 3], 4⟩ 0 (by decide)).2.1,
   (erase_spec ⟨[1, 99, 2, 3], 4⟩ 0 (by decide)).2.2.2 0 (by decide)⟩

/-- Claim C10: `Erase(p)` returns a cursor to position `p` (the second
component of the successful result), i.e. to the slot now holding the element
that immediately followed the erased one, or the end cursor (`p = new size`)
when the last element was erased. -/
theorem erase_cursor_spec (v : Vec Nat) (p : Nat) (hp : p < v.size) :
    v.erase p = .ok (⟨v.elems.take p ++ v.elems.drop (p + 1), v.cap⟩, p) ∧
    (p + 1 < v.size → (v.elems.take p ++ v.elems.drop (p + 1))[p]? = v.elems[p + 1]?) ∧
    (p + 1 = v.size → p = (v.elems.take p ++ v.elems.drop (p + 1)).length) := by
  refine ⟨erase_ok v p hp, ?_, ?_⟩
  · intro _
    exact eraseShape_getElem_ge v.elems p p (Nat.le_of_lt hp) (le_refl p)
  · intro h
    have h2 : p + 1 = v.elems.length := h
    rw [eraseShape_length v.elems p hp]
    omega

/-- Claim C10 witness: erasing the last element of `[8, 9]` returns cursor 1,
which is the end cursor of the resulting one-element vector. -/
theorem erase_cursor_spec_witness :
    (⟨[8, 9], 2⟩ : Vec Nat).erase 1 =
      .ok (⟨([8, 9] : List Nat).take 1 ++ ([8, 9] : List Nat).drop 2, 2⟩, 1) ∧
    1 = (([8, 9] : List Nat).take 1 ++ ([8, 9] : List Nat).drop 2).length :=
  ⟨(erase_cursor_spec ⟨[8, 9], 2⟩ 1 (by decide)).1,
   (erase_cursor_spec ⟨[8, 9], 2⟩ 1 (by decide)).2.2 (by decide)⟩

/-- Claim C8 witness: assigning a smaller vector reuses storage (capacity 3
kept); assigning into a too-small destination swaps in a copy with capacity
`rhs.size = 2`. -/
theorem copyAssign_spec_witness :
    ((⟨[1, 2, 3], 3⟩ : Vec Nat).copyAssign ⟨[9], 1⟩).elems = [9] ∧
    ((⟨[1, 2, 3], 3⟩ : Vec Nat).copyAssign ⟨[9], 1⟩).cap = 3 ∧
    ((⟨[], 0⟩ : Vec Nat).copyAssign ⟨[4, 5], 2⟩).cap = 2 :=
  ⟨(copyAssign_spec ⟨[1, 2, 3], 3⟩ ⟨[9], 1⟩).1,
   (copyAssign_spec ⟨[1, 2, 3], 3⟩ ⟨[9], 1⟩).2.2.1 (by decide),
   (copyAssign_spec ⟨[], 0⟩ ⟨[4, 5], 2⟩).2.2.2 (by decide)⟩

/-! ### Preservation of the size-capacity invariant -/

theorem emplaceBack_size (v : Vec α) (x : α) :
    ((v.emplaceBack x).1).size = v.size + 1 := by
  unfold Vec.emplaceBack
  by_cases hc : v.size < v.cap
  · rw [if_pos hc]
    show (v.elems ++ [x]).length = v.elems.length + 1
    simp
  · rw [if_neg hc]
    show (v.elems ++ [x]).length = v.elems.length + 1
    simp

theorem emplaceBack_preserves_inv (v : Vec α) (x : α) :
    ((v.emplaceBack x).1).size ≤ ((v.emplaceBack x).1).cap := by
  unfold Vec.emplaceBack
  by_cases hc : v.size < v.cap
  · rw [if_pos hc]
    show (v.elems ++ [x]).length ≤ v.cap
    simp only [Vec.size] at hc
    simp only [List.length_append, List.length_cons, List.length_nil]
    omega
  · rw [if_neg hc]
    show (v.elems ++ [x]).length ≤ v.newCapacity
    unfold Vec.newCapacity
    simp only [Vec.size] at hc ⊢
    simp only [List.length_append, List.length_cons, List.length_nil]
    split <;> omega

theorem emplaceBack_cap_mono (v : Vec α) (x : α) :
    v.cap ≤ ((v.emplaceBack x).1).cap := by
  unfold Vec.emplaceBack
  by_cases hc : v.size < v.cap
  · rw [if_pos hc]
  · rw [if_neg hc]
    show v.cap ≤ v.newCapacity
    unfold Vec.newCapacity
    simp only [Vec.size] at hc ⊢
    split <;> omega

theorem emplace_preserves_inv (v w : Vec α) (p r : Nat) (x : α)
    (hok : v.emplace p x = .ok (w, r)) : w.size ≤ w.cap := by
  unfold Vec.emplace at hok
  by_cases hp : p ≤ v.size
  · rw [if_pos hp] at hok
    by_cases he : p = v.size
    · rw [if_pos he] at hok
      injection hok with h
      injection h with h1 h2
      subst h1
      exact emplaceBack_preserves_inv v x
    · rw [if_neg he] at hok
      by_cases hc : v.size < v.cap
      · rw [if_pos hc] at hok
        injection hok with h
        injection h with h1 h2
        subst h1
        show (v.elems.take p ++ x :: v.elems.drop p).length ≤ v.cap
        rw [insertShape_length v.elems p x hp]
        simp only [Vec.size] at hc
        omega
      · rw [if_neg hc] at hok
        injection hok with h
        injection h with h1 h2
        subst h1
        show (v.elems.take p ++ x :: v.elems.drop p).length ≤ v.newCapacity
        rw [insertShape_length v.elems p x hp]
        unfold Vec.newCapacity
        simp only [Vec.size] at hp he ⊢
        split <;> omega
  · rw [if_neg hp] at hok
    simp at hok

theorem popBack_preserves_inv {v w : Vec α} (hok : v.popBack = .ok w)
    (hv : v.size ≤ v.cap) : w.size ≤ w.cap := by
  unfold Vec.popBack at hok
  by_cases h : v.elems.isEmpty
  · rw [if_pos h] at hok
    simp at hok
  · rw [if_neg h] at hok
    injection hok with h1
    subst h1
    show v.elems.dropLast.length ≤ v.cap
    simp only [Vec.size] at hv
    simp only [List.length_dropLast]
    omega

theorem erase_preserves_inv {v w : Vec α} {p r : Nat} (hok : v.erase p = .ok (w, r))
    (hv : v.size ≤ v.cap) : w.size ≤ w.cap := by
  unfold Vec.erase at hok
  by_cases h : p < v.size
  · rw [if_pos h] at hok
    injection hok with h1
    injection h1 with h2 h3
    subst h2
    show (v.elems.take p ++ v.elems.drop (p + 1)).length ≤ v.cap
    rw [eraseShape_length v.elems p h]
    simp only [Vec.size] at hv
    omega
  · rw [if_neg h] at hok
    simp at hok

theorem copyAssign_preserves_inv (v rhs : Vec α) :
    (v.copyAssign rhs).size ≤ (v.copyAssign rhs).cap := by
  unfold Vec.copyAssign
  by_cases h : v.cap < rhs.size
  · rw [if_pos h]
    exact le_refl _
  · by_cases h2 : rhs.size < v.size
    · rw [if_neg h, if_pos h2]
      show rhs.elems.length ≤ v.cap
      simp only [Vec.size] at h
      omega
    · rw [if_neg h, if_neg h2]
      show rhs.elems.length ≤ v.cap
      simp only [Vec.size] at h
      omega

theorem reserve_preserves_inv (v : Vec α) (n : Nat) (hv : v.size ≤ v.cap) :
    (v.reserve n).size ≤ (v.reserve n).cap := by
  unfold Vec.reserve
  by_cases h : n ≤ v.cap
  · rw [if_pos h]
    exact hv
  · rw [if_neg h]
    show v.elems.length ≤ n
    simp only [Vec.size] at hv
    omega

theorem reserve_cap_ge (v : Vec α) (n : Nat) : n ≤ (v.reserve n).cap := by
  unfold Vec.reserve
  by_cases h : n ≤ v.cap
  · rw [if_pos h]
    exact h
  · rw [if_neg h]

theorem reserve_elems_eq (v : Vec α) (n : Nat) : (v.reserve n).elems = v.elems := by
  unfold Vec.reserve
  by_cases h : n ≤ v.cap
  · rw [if_pos h]
  · rw [if_neg h]

theorem resize_preserves_inv (v : Vec α) (n : Nat) (d : α) (hv : v.size ≤ v.cap) :
    (v.resize n d).size ≤ (v.resize n d).cap := by
  unfold Vec.resize
  by_cases h1 : n = v.size
  · rw [if_pos h1]
    exact hv
  · rw [if_neg h1]
    by_cases h2 : n < v.size
    · rw [if_pos h2]
      show (v.elems.take n).length ≤ v.cap
      simp only [Vec.size] at hv h2
      simp only [List.length_take]
      omega
    · rw [if_neg h2]
      show ((v.reserve n).elems ++ List.replicate (n - v.size) d).length ≤ (v.reserve n).cap
      have hcap := reserve_cap_ge v n
      rw [reserve_elems_eq v n]
      simp only [List.length_append, List.length_replicate, Vec.size] at h1 h2 ⊢
      omega

/-- Every container reachable through the public interface satisfies
`size <= capacity`. -/
theorem reachable_inv {v : Vec α} (h : Reachable v) : v.size ≤ v.cap := by
  induction h with
  | default => exact le_refl 0
  | sized n d =>
      show (List.replicate n d).length ≤ n
      simp
  | copy _ _ => exact le_refl _
  | emplaceBack x _ _ => exact emplaceBack_preserves_inv _ x
  | emplace _ hok _ => exact emplace_preserves_inv _ _ _ _ _ hok
  | popBack _ hok ih => exact popBack_preserves_inv hok ih
  | erase _ hok ih => exact erase_preserves_inv hok ih
  | copyAssign _ _ _ _ => exact copyAssign_preserves_inv _ _
  | moveAssignDst _ _ _ ih2 => exact ih2
  | moveAssignSrc _ _ _ _ => exact Nat.zero_le _
  | reserve n _ ih => exact reserve_preserves_inv _ n ih
  | resize n d _ ih => exact resize_preserves_inv _ n d ih

theorem appendAll_size (xs : List α) (v : Vec α) :
    (v.appendAll xs).size = v.size + xs.length := by
  induction xs generalizing v with
  | nil => simp [Vec.appendAll]
  | cons x xs ih =>
      show (((v.emplaceBack x).1).appendAll xs).size = v.size + (x :: xs).length
      rw [ih, emplaceBack_size]
      simp only [List.length_cons]
      omega

theorem appendAll_inv (xs : List α) (v : Vec α) (hv : v.size ≤ v.cap) :
    (v.appendAll xs).size ≤ (v.appendAll xs).cap := by
  induction xs generalizing v with
  | nil => exact hv
  | cons x xs ih => exact ih _ (emplaceBack_preserves_inv v x)

/-- Claim C9: every container produced by a sequence of public operations
satisfies `0 <= size <= capacity` (the lower bound is inherent to `Nat`); for
a sequence of appends from the empty container the final size is the number
of appends, each single append never decreases the capacity (so the capacity
never decreases at any step of the sequence), and `capacity >= size` holds at
every intermediate state (each being an append-sequence from empty). -/
theorem vec_invariant_spec :
    (∀ v : Vec Nat, Reachable v → v.size ≤ v.cap) ∧
    (∀ xs : List Nat, ((Vec.empty : Vec Nat).appendAll xs).size = xs.length) ∧
    (∀ (w : Vec Nat) (x : Nat), w.cap ≤ ((w.emplaceBack x).1).cap) ∧
    (∀ xs : List Nat,
      ((Vec.empty : Vec Nat).appendAll xs).size ≤ ((Vec.empty : Vec Nat).appendAll xs).cap) := by
  refine ⟨fun v h => reachable_inv h, fun xs => ?_,
    fun w x => emplaceBack_cap_mono w x, fun xs => appendAll_inv xs _ (le_refl 0)⟩
  rw [appendAll_size]
  show 0 + xs.length = xs.length
  omega

/-- Claim C9 witness: a container reached by one append from empty satisfies
the invariant, and three appends from empty give size 3. -/
theorem vec_invariant_spec_witness :
    (((Vec.empty : Vec Nat).emplaceBack 5).1).size ≤ (((Vec.empty : Vec Nat).emplaceBack 5).1).cap ∧
    ((Vec.empty : Vec Nat).appendAll [1, 2, 3]).size = ([1, 2, 3] : List Nat).length :=
  ⟨vec_invariant_spec.1 _ (Reachable.emplaceBack 5 Reachable.default),
   vec_invariant_spec.2.1 [1, 2, 3]⟩

end notstd
